import Mathlib

/-!
Verification of the execution-coordination core of the pytket-pyquil adapter
(`pytket/extensions/pyquil/backends/forest.py`).

The development shallowly embeds the two backend classes of the source:

* `ForestBackend` — the shot-based, persistent-handle backend: circuit
  submission (`process_circuits`), the job cache, status reporting
  (`circuit_status`) and result retrieval (`get_result`);
* `ForestStateBackend` — the state-vector backend: submission with global
  phase adjustment, status reporting, and the Pauli expectation machinery
  (`_default_q_index`, `_gen_PauliTerm`).

External collaborators (the pyQuil quantum computer, the wavefunction
simulator, pytket's circuit translation `tk_to_pyquil`) are abstracted as
parameters: the translation's outputs (the pyQuil program handle, the list of
used bits, the simulated amplitudes) are inputs to the embedded operations,
whose own logic is transcribed from the source.
-/

namespace Forest

/-- A pytket classical bit (an element of `c0.bits`), abstracted to an id. -/
abbrev Bit := Nat

/-- The relevant observable fields of a pytket `Circuit` on the shot backend:
its classical bits in register order (`c0.bits`) and its count of `Measure`
gates (`circuit.n_gates_of_type(OpType.Measure)`). -/
structure TkCircuit where
  bits : List Bit
  nMeasure : Nat
deriving DecidableEq, Repr

/-- A `ResultHandle` of the shot backend: `(uuid4().int, json.dumps(ppcirc_rep))`.
The second component is the serialized post-processing circuit; `none` stands
for the serialization of Python `None`. -/
abbrev Handle := Nat × Option String

/-- A `BackendResult`, as the shot backend produces it: either the
`empty_result(circuit, n_shots)` placeholder cached for measure-free circuits,
or a shots table (filtered readout rows) together with the restored
post-processing circuit. -/
inductive BResult where
  | empty (circuit : TkCircuit) (nShots : Nat)
  | shotsRes (table : List (List Nat)) (ppcirc : Option String)
deriving DecidableEq, Repr

/-- One value of the job cache `self._cache[handle]`: the pyQuil job handle,
the sorted `bit_indices`, and the optional `"result"` entry. -/
structure CacheEntry where
  pyquilHandle : Nat
  bitIndices : List Nat
  result : Option BResult
deriving DecidableEq, Repr

/-- The job cache `self._cache`, a dictionary keyed by handle. -/
def Cache := Handle → Option CacheEntry

/-- The empty cache of a fresh backend instance. -/
def emptyCache : Cache := fun _ => none

/-- Dictionary assignment `self._cache[h] = e`. -/
def cacheSet (cache : Cache) (h : Handle) (e : CacheEntry) : Cache :=
  fun h' => if h' = h then some e else cache h'

/-- `pytket.backends.status.StatusEnum` (the values this adapter can emit). -/
inductive StatusEnum where
  | completed
  | running
  | submitted
deriving DecidableEq, Repr

/-- The errors the embedded operations can raise: `PyQuilJobStatusUnavailable`
(the spec's `StatusUnavailableError`), `CircuitNotRunError` (the spec's
`HandleNotFoundError`), the `ValueError` for missing readout data (the spec's
`ResultUnavailableError`), the failed `assert optimisation_level in range(3)`
(the spec's `InvalidConfigError`), and the `ValueError` for a non-default
qubit register (the spec's `InvalidRegisterError`). -/
inductive ForestError where
  | statusUnavailable
  | circuitNotRun
  | resultUnavailable
  | invalidConfig
  | invalidRegister
deriving DecidableEq, Repr

/-- `ForestBackend.circuit_status`: `COMPLETED` when a result is cached for a
known handle, `PyQuilJobStatusUnavailable` for a known handle without a cached
result, `CircuitNotRunError` for an unknown handle. -/
def circuit_status (cache : Cache) (h : Handle) : Except ForestError StatusEnum :=
  match cache h with
  | some e => if e.result.isSome then .ok .completed else .error .statusUnavailable
  | none => .error .circuitNotRun

/-- Modelled from the spec: the superclass dispatch `super().get_result(handle)`
of pytket-core's `Backend.get_result` (not part of this repository) — "If
cached, returns the cached value unchanged (no re-fetch; idempotent)";
otherwise it raises `CircuitNotRunError`, which `ForestBackend.get_result`
catches. -/
def superGetResult (cache : Cache) (h : Handle) : Except ForestError BResult :=
  match cache h with
  | some e =>
    match e.result with
    | some r => .ok r
    | none => .error .circuitNotRun
  | none => .error .circuitNotRun

/-- The column filter `raw_shots[:, bit_indices]` applied to one readout row. -/
def filterRow (bitIndices : List Nat) (row : List Nat) : List Nat :=
  bitIndices.map (fun i => row.getD i 0)

/-- `ForestBackend.get_result`. The external fetch
`self._qc.qam.get_result(pyquil_handle).readout_data["ro"]` is abstracted as
`raw : Nat → Option (List (List Nat))` from pyQuil job handles to readout
matrices (`none` models missing data). Returns the result, the updated cache,
and a flag recording whether the external fetch was performed. -/
def get_result (raw : Nat → Option (List (List Nat))) (cache : Cache) (h : Handle) :
    Except ForestError (BResult × Cache × Bool) :=
  match superGetResult cache h with
  | .ok r => .ok (r, cache, false)
  | .error _ =>
    match cache h with
    | none => .error .circuitNotRun
    | some e =>
      match raw e.pyquilHandle with
      | none => .error .resultUnavailable
      | some rawShots =>
        let table := rawShots.map (filterRow e.bitIndices)
        let res := BResult.shotsRes table h.2
        .ok (res, cacheSet cache h { e with result := some res }, true)

/-- One iteration of the submission loop of `ForestBackend.process_circuits`:
`circuit` is the submitted circuit, `c0` the circuit actually translated
(equal to `circuit` unless post-processing rewrote it), `usedBits` the bits
returned by `tk_to_pyquil(c0, return_used_bits=True)`, `uuid` the fresh
`uuid4().int`, `pyqh` the pyQuil handle returned by `qam.execute`, and `pp`
the serialized post-processing circuit. Computes `bit_indices`, stores the
cache entry (with the eager `empty_result` when the circuit has no `Measure`
gate), and returns the new cache with the issued handle. -/
def processOne (cache : Cache) (circuit c0 : TkCircuit) (usedBits : List Bit)
    (nShots uuid pyqh : Nat) (pp : Option String) : Cache × Handle :=
  let bit_indices := usedBits.map (fun b => c0.bits.indexOf b)
  let handle : Handle := (uuid, pp)
  let entry : CacheEntry :=
    if circuit.nMeasure = 0 then
      { pyquilHandle := pyqh
        bitIndices := List.insertionSort (· ≤ ·) bit_indices
        result := some (BResult.empty circuit nShots) }
    else
      { pyquilHandle := pyqh
        bitIndices := List.insertionSort (· ≤ ·) bit_indices
        result := none }
  (cacheSet cache handle entry, handle)

/-! ### Compilation pipeline builder -/

/-- The placement strategy a `CXMappingPass` is constructed with. -/
inductive Placement where
  | noiseAware
  | naive
deriving DecidableEq, Repr

/-- The pytket rewrite passes appearing in `default_compilation_pass` of the
two backends, as symbolic pass constructors. -/
inductive CompilerPass where
  | decomposeBoxes
  | flattenRegisters
  | synthesiseTket
  | fullPeepholeOptimise
  | cxMapping (placement : Placement) (directedCx delayMeasures : Bool)
  | naivePlacement
  | kakDecomposition (allowSwaps : Bool)
  | cliffordSimp (allowSwaps : Bool)
  | autoRebase
  | eulerAngleReduction
deriving DecidableEq, Repr

/-- `ForestBackend.rebase_pass`: `AutoRebase({CZ, Rz, Rx})`. -/
def rebase_pass : CompilerPass := .autoRebase

/-- `ForestBackend.default_compilation_pass`. The source's
`assert optimisation_level in range(3)` is modelled as the
`invalidConfig` error (the spec's `InvalidConfigError`); on success the
ordered pass list of the constructed `SequencePass` is returned. The
`CXMappingPass` is always built with a `NoiseAwarePlacement` and with
`directed_cx=False`, `delay_measures=True`, and is always followed by a
`NaivePlacementPass`. -/
def default_compilation_pass (optimisationLevel : Int) : Except ForestError (List CompilerPass) :=
  if ¬ (0 ≤ optimisationLevel ∧ optimisationLevel < 3) then .error .invalidConfig
  else
    let l1 : List CompilerPass := [.decomposeBoxes, .flattenRegisters]
    let l2 := if optimisationLevel = 1 then l1 ++ [.synthesiseTket]
      else if optimisationLevel = 2 then l1 ++ [.fullPeepholeOptimise]
      else l1
    let l3 := l2 ++ [.cxMapping .noiseAware false true, .naivePlacement]
    let l4 := if optimisationLevel = 2 then
        l3 ++ [.kakDecomposition false, .cliffordSimp false]
      else l3
    let l5 := if optimisationLevel > 0 then l4 ++ [.synthesiseTket] else l4
    let l6 := l5 ++ [rebase_pass]
    .ok (if optimisationLevel > 0 then l6 ++ [.eulerAngleReduction] else l6)

/-- `ForestStateBackend.default_compilation_pass`: no routing (the simulator
has no connectivity constraint), same level-dependent optimisation passes. -/
def forestState_default_compilation_pass (optimisationLevel : Int) :
    Except ForestError (List CompilerPass) :=
  if ¬ (0 ≤ optimisationLevel ∧ optimisationLevel < 3) then .error .invalidConfig
  else
    let l1 : List CompilerPass := [.decomposeBoxes, .flattenRegisters]
    let l2 := if optimisationLevel = 1 then l1 ++ [.synthesiseTket]
      else if optimisationLevel = 2 then l1 ++ [.fullPeepholeOptimise]
      else l1
    let l3 := l2 ++ [rebase_pass]
    .ok (if optimisationLevel > 0 then l3 ++ [.eulerAngleReduction] else l3)

/-- Whether a pass list contains a `CXMappingPass` built with naive placement. -/
def containsNaiveMapping (l : List CompilerPass) : Bool :=
  l.any fun p =>
    match p with
    | .cxMapping .naive _ _ => true
    | _ => false

/-- Whether a pass list contains a `CXMappingPass` built with noise-aware
placement. -/
def containsNoiseAwareMapping (l : List CompilerPass) : Bool :=
  l.any fun p =>
    match p with
    | .cxMapping .noiseAware _ _ => true
    | _ => false

/-! ### Pauli expectation machinery of the state backend -/

/-- A pytket `Qubit`: a register name and a (possibly multi-dimensional)
index. -/
structure TkQubit where
  regName : String
  index : List Int
deriving DecidableEq, Repr

/-- A single-qubit Pauli operator. -/
inductive PauliExpr where
  | I
  | X
  | Y
  | Z
deriving DecidableEq, Repr

/-- `_default_q_index`: fails (`ValueError "Non-default qubit register"`, the
spec's `InvalidRegisterError`) unless the qubit lies in the default register
`q` with a single index; returns `int(q.index[0])` otherwise. -/
def _default_q_index (q : TkQubit) : Except ForestError Int :=
  if q.regName ≠ "q" ∨ q.index.length ≠ 1 then .error .invalidRegister
  else .ok q.index.headI

/-- The factor-building loop of `_gen_PauliTerm`
(`for q, p in term.map.items(): pauli_term *= PauliTerm(p.name, _default_q_index(q))`):
the single-qubit factors keyed by `_default_q_index`, the first register
failure propagating. -/
def genFactors : List (TkQubit × PauliExpr) → Except ForestError (List (PauliExpr × Int))
  | [] => .ok []
  | qp :: rest =>
    match _default_q_index qp.1 with
    | .error e => .error e
    | .ok i =>
      match genFactors rest with
      | .error e => .error e
      | .ok fs => .ok ((qp.2, i) :: fs)

/-- `ForestStateBackend._gen_PauliTerm`: builds the pyQuil `PauliTerm` for a
`QubitPauliString` (modelled as its list of qubit/Pauli pairs) with a carried
coefficient (`ID() * coeff`, then the factor product). -/
def _gen_PauliTerm {C : Type} (term : List (TkQubit × PauliExpr)) (coeff : C) :
    Except ForestError (List (PauliExpr × Int) × C) :=
  (genFactors term).map fun factors => (factors, coeff)

/-- `ForestStateBackend.get_pauli_expectation_value`, up to the external
simulator call: the Pauli term handed to `self._sim.expectation`
(coefficient `1`, as in `ID() * 1.0`). -/
def get_pauli_expectation_value (pauli : List (TkQubit × PauliExpr)) :
    Except ForestError (List (PauliExpr × Int) × Int) :=
  _gen_PauliTerm pauli 1

/-- `ForestStateBackend.get_operator_expectation_value`, up to the external
simulator call: the `PauliSum` built by
`[self._gen_PauliTerm(term, coeff) for term, coeff in operator._dict.items()]`,
the first register failure propagating. -/
def get_operator_expectation_value {C : Type} :
    List (List (TkQubit × PauliExpr) × C) →
    Except ForestError (List (List (PauliExpr × Int) × C))
  | [] => .ok []
  | tc :: rest =>
    match _gen_PauliTerm tc.1 tc.2 with
    | .error e => .error e
    | .ok t =>
      match get_operator_expectation_value rest with
      | .error e => .error e
      | .ok ts => .ok (t :: ts)

/-! ### State backend submission and status -/

/-- The relevant fields of a circuit submitted to `ForestStateBackend`: its
qubit indices (all in the default register, as `DefaultRegisterPredicate`
requires) and its global phase — `some p` when `float(circuit.phase)`
succeeds, `none` when the phase is symbolic. -/
structure SCircuit where
  qubits : List Nat
  phase : Option ℚ
deriving DecidableEq

/-- A state-vector `BackendResult`: the qubit ordering tag and the amplitude
vector. -/
structure SResult where
  resQubits : List Nat
  state : List ℂ

/-- The state backend's job cache; handles are bare `uuid4().int` values. -/
def SCache := Nat → Option SResult

/-- The empty state-backend cache. -/
def emptySCache : SCache := fun _ => none

/-- Dictionary assignment on the state-backend cache. -/
def scacheSet (cache : SCache) (h : Nat) (r : SResult) : SCache :=
  fun h' => if h' = h then some r else cache h'

/-- One iteration of the submission loop of
`ForestStateBackend.process_circuits`: `simAmps` are the amplitudes returned
by the external `WavefunctionSimulator`, `perm` the circuit's implicit qubit
permutation, `uuid` the fresh handle. When the phase is numeric the state is
scaled by `exp(phase * π * i)`; a symbolic phase only logs a warning. The
result qubits are the implicit permutation applied to the circuit's qubits
sorted in reverse order. The result is stored in the cache before the handle
is returned. -/
noncomputable def forestState_processOne (cache : SCache) (c : SCircuit)
    (simAmps : List ℂ) (perm : Nat → Nat) (uuid : Nat) : SCache × Nat :=
  let state := match c.phase with
    | some phase => simAmps.map fun a => a * Complex.exp (phase * Real.pi * Complex.I)
    | none => simAmps
  let resQubits := (List.insertionSort (· ≥ ·) c.qubits).map perm
  (scacheSet cache uuid ⟨resQubits, state⟩, uuid)

/-- `ForestStateBackend.circuit_status`: `COMPLETED` for every known handle,
`CircuitNotRunError` otherwise. -/
def forestState_circuit_status (cache : SCache) (h : Nat) : Except ForestError StatusEnum :=
  if (cache h).isSome then .ok .completed else .error .circuitNotRun

/-- A full `ForestStateBackend.process_circuits` batch: fold the submission
loop over the inputs (each with its simulator amplitudes, implicit
permutation, and fresh uuid), collecting the issued handles in order. -/
noncomputable def forestState_processCircuits
    (inputs : List (SCircuit × List ℂ × (Nat → Nat) × Nat)) : SCache × List Nat :=
  inputs.foldl
    (fun s inp =>
      let (cache', h) := forestState_processOne s.1 inp.1 inp.2.1 inp.2.2.1 inp.2.2.2
      (cache', s.2 ++ [h]))
    (emptySCache, [])

/-! ### Trace model of the shot backend

The lifecycle claims about `ForestBackend` quantify over every sequence of
submissions and retrievals performed on one backend instance. An operation is
either one submission-loop iteration (with the data the external
collaborators supply for it) or a `get_result` call. -/

/-- One operation on a `ForestBackend` instance. -/
inductive ForestOp where
  | submit (circuit c0 : TkCircuit) (usedBits : List Bit)
      (nShots uuid pyqh : Nat) (pp : Option String)
  | getRes (h : Handle)

/-- The handle a submission operation issues. -/
def ForestOp.submitHandle : ForestOp → Option Handle
  | .submit _ _ _ _ uuid _ pp => some (uuid, pp)
  | .getRes _ => none

/-- The handles issued by the submissions of a trace. -/
def submitHandles (ops : List ForestOp) : List Handle :=
  ops.filterMap ForestOp.submitHandle

/-- The handles issued by submissions of circuits with zero `Measure` gates
(the eagerly-cached ones). -/
def zeroMeasSubmits (ops : List ForestOp) : List Handle :=
  ops.filterMap fun op =>
    match op with
    | .submit circuit _ _ _ uuid _ pp =>
      if circuit.nMeasure = 0 then some (uuid, pp) else none
    | .getRes _ => none

/-- Execute one operation on the backend state: the cache together with the
log of handles for which `get_result` has succeeded. A failed `get_result`
leaves the state unchanged (the exception propagates to the caller). -/
def stepOp (raw : Nat → Option (List (List Nat))) (s : Cache × List Handle)
    (op : ForestOp) : Cache × List Handle :=
  match op with
  | .submit circuit c0 ub n u pq pp => ((processOne s.1 circuit c0 ub n u pq pp).1, s.2)
  | .getRes h =>
    match get_result raw s.1 h with
    | .ok (_, cache', _) => (cache', h :: s.2)
    | .error _ => s

/-- Run a trace of operations on a fresh backend instance. -/
def runOps (raw : Nat → Option (List (List Nat))) (ops : List ForestOp) :
    Cache × List Handle :=
  ops.foldl (stepOp raw) (emptyCache, [])

/-- A result is cached for the handle (`"result" in self._cache[handle]`). -/
def resultCached (cache : Cache) (h : Handle) : Prop :=
  ∃ e, cache h = some e ∧ e.result.isSome

/-- The literal reading of the spec sentence "`status(h)` returns `Completed`
iff `result(h)` has been successfully called at least once prior (for
persistent-handle targets)": over every trace, the status of a handle is
`COMPLETED` exactly when a successful `get_result` for it appears in the
trace. -/
def statusIffResultCalled : Prop :=
  ∀ raw ops h,
    circuit_status (runOps raw ops).1 h = .ok .completed ↔ h ∈ (runOps raw ops).2

/-! ### Theorems -/

/-- C1: for every handle queried on `ForestBackend.circuit_status`, the call
returns `COMPLETED` exactly when a result is cached for the handle, raises
`PyQuilJobStatusUnavailable` (the spec's `StatusUnavailableError`) exactly
when the handle is known to the cache but has no cached result, raises
`CircuitNotRunError` (the spec's `HandleNotFoundError`) exactly when the
handle is unknown, and these three outcomes are exhaustive (hence, as the
characterising conditions partition all cases, mutually exclusive). -/
theorem circuit_status_trichotomy (cache : Cache) (h : Handle) :
    (circuit_status cache h = .ok .completed ↔ resultCached cache h) ∧
    (circuit_status cache h = .error .statusUnavailable ↔
      ∃ e, cache h = some e ∧ e.result = none) ∧
    (circuit_status cache h = .error .circuitNotRun ↔ cache h = none) ∧
    (circuit_status cache h = .ok .completed ∨
      circuit_status cache h = .error .statusUnavailable ∨
      circuit_status cache h = .error .circuitNotRun) := by
  unfold circuit_status resultCached
  cases hc : cache h with
  | none => simp
  | some e =>
    cases hr : e.result with
    | none => simp [hr]
    | some r => simp [hr]

/-- C7: for every optimisation level outside `{0, 1, 2}`, both backends'
`default_compilation_pass` fails with the `InvalidConfigError` (the failed
`assert optimisation_level in range(3)`) before any pass list is built. -/
theorem invalid_optimisation_level_fails (l : Int) (hl : l < 0 ∨ 3 ≤ l) :
    default_compilation_pass l = .error .invalidConfig ∧
    forestState_default_compilation_pass l = .error .invalidConfig := by
  have hn : ¬ (0 ≤ l ∧ l < 3) := by omega
  unfold default_compilation_pass forestState_default_compilation_pass
  simp [hn]

/-- Witness for C7 at the concrete level `3`. -/
theorem invalid_optimisation_level_fails_witness :
    default_compilation_pass 3 = .error .invalidConfig ∧
    forestState_default_compilation_pass 3 = .error .invalidConfig :=
  invalid_optimisation_level_fails 3 (by omega)

/-- C2 counterexample: at optimisation level 0, the pipeline built by
`ForestBackend.default_compilation_pass` contains a `CXMappingPass`
constructed with *noise-aware* placement and none constructed with naive
placement — contrary to the claim that levels 0 and 1 route with naive
placement and only level 2 routes with noise-aware placement. -/
theorem level0_routing_is_noise_aware :
    (default_compilation_pass 0).map containsNoiseAwareMapping = .ok true ∧
    (default_compilation_pass 0).map containsNaiveMapping = .ok false ∧
    (default_compilation_pass 1).map containsNoiseAwareMapping = .ok true ∧
    (default_compilation_pass 1).map containsNaiveMapping = .ok false := by
  refine ⟨?_, ?_, ?_, ?_⟩ <;> rfl

/-- C2 amended: at every optimisation level in `{0, 1, 2}`,
`ForestBackend.default_compilation_pass` builds its routing pass
(`CXMappingPass`) with noise-aware placement — never with naive placement —
and follows it with a `NaivePlacementPass`; the placement strategy does not
vary with the level. -/
theorem routing_noise_aware_at_all_levels (l : Int) (hl : 0 ≤ l ∧ l < 3) :
    ∃ pl, default_compilation_pass l = .ok pl ∧
      containsNoiseAwareMapping pl = true ∧
      containsNaiveMapping pl = false ∧
      CompilerPass.naivePlacement ∈ pl := by
  obtain ⟨h0, h3⟩ := hl
  interval_cases l
  · exact ⟨_, rfl, rfl, rfl, by decide⟩
  · exact ⟨_, rfl, rfl, rfl, by decide⟩
  · exact ⟨_, rfl, rfl, rfl, by decide⟩

/-- Witness for the amended C2 at the concrete level `0`. -/
theorem routing_noise_aware_at_all_levels_witness :
    ∃ pl, default_compilation_pass 0 = .ok pl ∧
      containsNoiseAwareMapping pl = true ∧
      containsNaiveMapping pl = false ∧
      CompilerPass.naivePlacement ∈ pl :=
  routing_noise_aware_at_all_levels 0 (by omega)

/-- Helper: `get_result` on a handle whose result is cached returns the cached
value, leaves the cache untouched, and performs no external fetch. -/
theorem get_result_of_cached (raw : Nat → Option (List (List Nat))) (cache : Cache)
    (h : Handle) (e : CacheEntry) (r : BResult)
    (hc : cache h = some e) (hr : e.result = some r) :
    get_result raw cache h = .ok (r, cache, false) := by
  simp [get_result, superGetResult, hc, hr]

/-- Helper: a successful `get_result` leaves the cache with the returned
result stored under the queried handle, changes no other entry, and creates
no new entry. -/
theorem get_result_ok_spec (raw : Nat → Option (List (List Nat))) (cache : Cache)
    (h : Handle) (r : BResult) (cache1 : Cache) (f : Bool)
    (h1 : get_result raw cache h = .ok (r, cache1, f)) :
    (∃ e, cache1 h = some e ∧ e.result = some r) ∧
    (∀ h', h' ≠ h → cache1 h' = cache h') ∧
    (∀ h', (cache1 h').isSome → (cache h').isSome) := by
  cases hc : cache h with
  | none => simp [get_result, superGetResult, hc] at h1
  | some e =>
    cases hr : e.result with
    | some r0 =>
      simp [get_result, superGetResult, hc, hr] at h1
      obtain ⟨rfl, rfl, rfl⟩ := h1
      exact ⟨⟨e, hc, hr⟩, fun _ _ => rfl, fun h' hh => hh⟩
    | none =>
      cases hraw : raw e.pyquilHandle with
      | none => simp [get_result, superGetResult, hc, hr, hraw] at h1
      | some rawShots =>
        simp [get_result, superGetResult, hc, hr, hraw] at h1
        obtain ⟨rfl, rfl, rfl⟩ := h1
        refine ⟨⟨{ e with
          result := some (BResult.shotsRes (rawShots.map (filterRow e.bitIndices)) h.2) },
          ?_, rfl⟩, ?_, ?_⟩
        · simp [cacheSet]
        · intro h' hne
          simp [cacheSet, hne]
        · intro h' hh
          by_cases hEq : h' = h
          · subst hEq; simp [hc]
          · simpa [cacheSet, hEq] using hh

/-- C3: result retrieval is idempotent — after any successful `get_result`
call for a handle, calling `get_result` again returns exactly the same
`BackendResult` (the cached one), leaves the cache unchanged, and performs no
fetch from the external target. -/
theorem get_result_idempotent_no_refetch (raw : Nat → Option (List (List Nat)))
    (cache : Cache) (h : Handle) (r : BResult) (cache1 : Cache) (f : Bool)
    (h1 : get_result raw cache h = .ok (r, cache1, f)) :
    get_result raw cache1 h = .ok (r, cache1, false) := by
  obtain ⟨⟨e, he, hr⟩, -, -⟩ := get_result_ok_spec raw cache h r cache1 f h1
  exact get_result_of_cached raw cache1 h e r he hr

/-- Witness for C3: a concrete cache holding a cached result for handle
`(0, none)`; retrieval returns it unchanged with no fetch. -/
theorem get_result_idempotent_no_refetch_witness :
    get_result (fun _ => none)
        (cacheSet emptyCache (0, none)
          ⟨0, [], some (BResult.empty ⟨[], 0⟩ 1)⟩) (0, none) =
      .ok (BResult.empty ⟨[], 0⟩ 1,
        cacheSet emptyCache (0, none) ⟨0, [], some (BResult.empty ⟨[], 0⟩ 1)⟩,
        false) :=
  get_result_idempotent_no_refetch (fun _ => none)
    (cacheSet emptyCache (0, none) ⟨0, [], some (BResult.empty ⟨[], 0⟩ 1)⟩)
    (0, none) (BResult.empty ⟨[], 0⟩ 1)
    (cacheSet emptyCache (0, none) ⟨0, [], some (BResult.empty ⟨[], 0⟩ 1)⟩)
    false rfl

/-- C4: submitting a circuit with zero `Measure` gates eagerly caches the
`empty_result` placeholder at submission time: the cache entry of the issued
handle already holds the result, and `get_result` on that handle succeeds with
it for every behaviour of the external target, with no fetch performed. -/
theorem unmeasured_submission_eager_result (cache : Cache) (circuit c0 : TkCircuit)
    (ub : List Bit) (nShots uuid pyqh : Nat) (pp : Option String)
    (hm : circuit.nMeasure = 0) :
    (processOne cache circuit c0 ub nShots uuid pyqh pp).1
        (processOne cache circuit c0 ub nShots uuid pyqh pp).2 =
      some ⟨pyqh, List.insertionSort (· ≤ ·) (ub.map fun b => c0.bits.indexOf b),
        some (BResult.empty circuit nShots)⟩ ∧
    ∀ raw : Nat → Option (List (List Nat)),
      get_result raw (processOne cache circuit c0 ub nShots uuid pyqh pp).1
          (processOne cache circuit c0 ub nShots uuid pyqh pp).2 =
        .ok (BResult.empty circuit nShots,
          (processOne cache circuit c0 ub nShots uuid pyqh pp).1, false) := by
  constructor
  · simp [processOne, hm, cacheSet]
  · intro raw
    exact get_result_of_cached raw _ _
      ⟨pyqh, List.insertionSort (· ≤ ·) (ub.map fun b => c0.bits.indexOf b),
        some (BResult.empty circuit nShots)⟩
      (BResult.empty circuit nShots)
      (by simp [processOne, hm, cacheSet]) rfl

/-- Witness for C4 at a concrete measureless circuit. -/
theorem unmeasured_submission_eager_result_witness :
    (processOne emptyCache ⟨[0], 0⟩ ⟨[0], 0⟩ [] 5 7 3 none).1
        (processOne emptyCache ⟨[0], 0⟩ ⟨[0], 0⟩ [] 5 7 3 none).2 =
      some ⟨3, List.insertionSort (· ≤ ·) (([] : List Bit).map fun b => [0].indexOf b),
        some (BResult.empty ⟨[0], 0⟩ 5)⟩ ∧
    ∀ raw : Nat → Option (List (List Nat)),
      get_result raw (processOne emptyCache ⟨[0], 0⟩ ⟨[0], 0⟩ [] 5 7 3 none).1
          (processOne emptyCache ⟨[0], 0⟩ ⟨[0], 0⟩ [] 5 7 3 none).2 =
        .ok (BResult.empty ⟨[0], 0⟩ 5,
          (processOne emptyCache ⟨[0], 0⟩ ⟨[0], 0⟩ [] 5 7 3 none).1, false) :=
  unmeasured_submission_eager_result emptyCache ⟨[0], 0⟩ ⟨[0], 0⟩ [] 5 7 3 none rfl

/-- C6: for a submitted circuit measuring the subset of bits `ub` of its
allocated bits `c0.bits`, the outcome table returned by `get_result` has
exactly `ub.length` columns per shot row; the stored `bit_indices` used to
filter the raw columns are sorted ascending and are a permutation of the
indices of the measured bits within the register (each index genuinely
locating its bit in `c0.bits`). -/
theorem measured_subset_column_filter (cache : Cache) (circuit c0 : TkCircuit)
    (ub : List Bit) (nShots uuid pyqh : Nat) (pp : Option String)
    (raw : Nat → Option (List (List Nat))) (rawTable : List (List Nat))
    (hm : circuit.nMeasure ≠ 0)
    (hraw : raw pyqh = some rawTable)
    (hsub : ∀ b ∈ ub, b ∈ c0.bits) :
    ∃ table cache2,
      get_result raw (processOne cache circuit c0 ub nShots uuid pyqh pp).1
          (processOne cache circuit c0 ub nShots uuid pyqh pp).2 =
        .ok (BResult.shotsRes table pp, cache2, true) ∧
      table = rawTable.map
        (filterRow (List.insertionSort (· ≤ ·) (ub.map fun b => c0.bits.indexOf b))) ∧
      table.length = rawTable.length ∧
      (∀ row ∈ table, row.length = ub.length) ∧
      List.Sorted (· ≤ ·)
        (List.insertionSort (· ≤ ·) (ub.map fun b => c0.bits.indexOf b)) ∧
      (List.insertionSort (· ≤ ·) (ub.map fun b => c0.bits.indexOf b)).Perm
        (ub.map fun b => c0.bits.indexOf b) ∧
      ∀ b ∈ ub, c0.bits[c0.bits.indexOf b]? = some b := by
  refine ⟨rawTable.map
      (filterRow (List.insertionSort (· ≤ ·) (ub.map fun b => c0.bits.indexOf b))),
    cacheSet (processOne cache circuit c0 ub nShots uuid pyqh pp).1
      (processOne cache circuit c0 ub nShots uuid pyqh pp).2
      ⟨pyqh, List.insertionSort (· ≤ ·) (ub.map fun b => c0.bits.indexOf b),
        some (BResult.shotsRes (rawTable.map (filterRow (List.insertionSort (· ≤ ·)
          (ub.map fun b => c0.bits.indexOf b)))) pp)⟩,
    ?_, rfl, by simp, ?_, ?_, ?_, ?_⟩
  · simp [get_result, superGetResult, processOne, cacheSet, hm, hraw]
  · intro row hrow
    rw [List.mem_map] at hrow
    obtain ⟨a, _, rfl⟩ := hrow
    simp [filterRow]
  · exact List.sorted_insertionSort _ _
  · exact List.perm_insertionSort _ _
  · exact fun b hb => List.getElem?_indexOf (hsub b hb)

/-- Witness for C6: a 2-bit circuit with one measure gate, both bits used in
reversed order, one raw shot row `[5, 6]`. -/
theorem measured_subset_column_filter_witness :
    ∃ table cache2,
      get_result (fun _ => some [[5, 6]])
          (processOne emptyCache ⟨[0, 1], 1⟩ ⟨[0, 1], 1⟩ [1, 0] 9 4 2 none).1
          (processOne emptyCache ⟨[0, 1], 1⟩ ⟨[0, 1], 1⟩ [1, 0] 9 4 2 none).2 =
        .ok (BResult.shotsRes table none, cache2, true) ∧
      table = [[5, 6]].map
        (filterRow (List.insertionSort (· ≤ ·) ([1, 0].map fun b => [0, 1].indexOf b))) ∧
      table.length = ([[5, 6]] : List (List Nat)).length ∧
      (∀ row ∈ table, row.length = ([1, 0] : List Bit).length) ∧
      List.Sorted (· ≤ ·)
        (List.insertionSort (· ≤ ·) ([1, 0].map fun b => [0, 1].indexOf b)) ∧
      (List.insertionSort (· ≤ ·) ([1, 0].map fun b => [0, 1].indexOf b)).Perm
        ([1, 0].map fun b => [0, 1].indexOf b) ∧
      ∀ b ∈ ([1, 0] : List Bit), ([0, 1] : List Bit)[([0, 1] : List Bit).indexOf b]? = some b :=
  measured_subset_column_filter emptyCache ⟨[0, 1], 1⟩ ⟨[0, 1], 1⟩ [1, 0] 9 4 2 none
    (fun _ => some [[5, 6]]) [[5, 6]] (by decide) rfl (by decide)

/-- A qubit lies in the assumed canonical default register: register named
`q` with a single index (the check of `_default_q_index`). -/
def defaultQubit (q : TkQubit) : Prop := q.regName = "q" ∧ q.index.length = 1

instance (q : TkQubit) : Decidable (defaultQubit q) := by
  unfold defaultQubit; infer_instance

/-- Helper: `_default_q_index` succeeds on a default-register qubit with its
index. -/
theorem default_q_index_ok (q : TkQubit) (hq : defaultQubit q) :
    _default_q_index q = .ok q.index.headI := by
  obtain ⟨h1, h2⟩ := hq
  simp [_default_q_index, h1, h2]

/-- Helper: `_default_q_index` fails with the register error on a qubit
outside the default register. -/
theorem default_q_index_err (q : TkQubit) (hq : ¬ defaultQubit q) :
    _default_q_index q = .error .invalidRegister := by
  unfold _default_q_index
  rw [if_pos]
  unfold defaultQubit at hq
  push_neg at hq
  by_cases h1 : q.regName = "q"
  · exact Or.inr (hq h1)
  · exact Or.inl h1

/-- Helper: the factor loop succeeds on a string whose qubits all lie in the
default register, keying each factor by the qubit's index. -/
theorem genFactors_ok (term : List (TkQubit × PauliExpr))
    (hgood : ∀ qp ∈ term, defaultQubit qp.1) :
    genFactors term = .ok (term.map fun qp => (qp.2, qp.1.index.headI)) := by
  induction term with
  | nil => rfl
  | cons qp rest ih =>
    simp [genFactors, default_q_index_ok qp.1 (hgood qp (by simp)),
      ih fun x hx => hgood x (List.mem_cons_of_mem _ hx)]

/-- Helper: the factor loop fails with the register error as soon as some
qubit of the string lies outside the default register. -/
theorem genFactors_err (term : List (TkQubit × PauliExpr))
    (hbad : ∃ qp ∈ term, ¬ defaultQubit qp.1) :
    genFactors term = .error .invalidRegister := by
  induction term with
  | nil => simp at hbad
  | cons qp rest ih =>
    by_cases hq : defaultQubit qp.1
    · obtain ⟨qp', hmem, hbad'⟩ := hbad
      rcases List.mem_cons.mp hmem with rfl | hmem'
      · exact absurd hq hbad'
      · simp [genFactors, default_q_index_ok qp.1 hq, ih ⟨qp', hmem', hbad'⟩]
    · simp [genFactors, default_q_index_err qp.1 hq]

/-- Helper: `_gen_PauliTerm` on an all-default-register string. -/
theorem genPauliTerm_ok {C : Type} (term : List (TkQubit × PauliExpr)) (coeff : C)
    (hgood : ∀ qp ∈ term, defaultQubit qp.1) :
    _gen_PauliTerm term coeff =
      .ok (term.map fun qp => (qp.2, qp.1.index.headI), coeff) := by
  simp [_gen_PauliTerm, genFactors_ok term hgood, Except.map]

/-- Helper: `_gen_PauliTerm` on a string touching a non-default qubit. -/
theorem genPauliTerm_err {C : Type} (term : List (TkQubit × PauliExpr)) (coeff : C)
    (hbad : ∃ qp ∈ term, ¬ defaultQubit qp.1) :
    _gen_PauliTerm term coeff = .error .invalidRegister := by
  simp [_gen_PauliTerm, genFactors_err term hbad, Except.map]

/-- C9: the Pauli-string and Pauli-operator expectation operations fail with
the `InvalidRegisterError` (`_default_q_index`'s `ValueError`) whenever some
qubit referenced by the observable lies outside the canonical default
register, and otherwise build the term handed to the simulator with each
single-qubit Pauli factor keyed by its qubit's canonical index. -/
theorem pauli_expectation_register_check {C : Type}
    (term : List (TkQubit × PauliExpr))
    (operator : List (List (TkQubit × PauliExpr) × C)) :
    ((∃ qp ∈ term, ¬ defaultQubit qp.1) →
      get_pauli_expectation_value term = .error .invalidRegister) ∧
    ((∀ qp ∈ term, defaultQubit qp.1) →
      get_pauli_expectation_value term =
        .ok (term.map fun qp => (qp.2, qp.1.index.headI), 1)) ∧
    ((∃ tc ∈ operator, ∃ qp ∈ tc.1, ¬ defaultQubit qp.1) →
      get_operator_expectation_value operator = .error .invalidRegister) ∧
    ((∀ tc ∈ operator, ∀ qp ∈ tc.1, defaultQubit qp.1) →
      get_operator_expectation_value operator =
        .ok (operator.map fun tc =>
          (tc.1.map fun qp => (qp.2, qp.1.index.headI), tc.2))) := by
  refine ⟨fun hbad => genPauliTerm_err term 1 hbad,
    fun hgood => genPauliTerm_ok term 1 hgood, ?_, ?_⟩
  · induction operator with
    | nil => intro hbad; simp at hbad
    | cons tc rest ih =>
      intro hbad
      obtain ⟨tc', hmem, hbad'⟩ := hbad
      rcases List.mem_cons.mp hmem with rfl | hmem'
      · simp [get_operator_expectation_value, genPauliTerm_err tc'.1 tc'.2 hbad']
      · by_cases hall : ∀ qp ∈ tc.1, defaultQubit qp.1
        · simp [get_operator_expectation_value, genPauliTerm_ok tc.1 tc.2 hall,
            ih ⟨tc', hmem', hbad'⟩]
        · push_neg at hall
          simp [get_operator_expectation_value, genPauliTerm_err tc.1 tc.2 hall]
  · induction operator with
    | nil => intro _; rfl
    | cons tc rest ih =>
      intro hgood
      simp [get_operator_expectation_value,
        genPauliTerm_ok tc.1 tc.2 (hgood tc (by simp)),
        ih fun x hx => hgood x (List.mem_cons_of_mem _ hx)]

/-- Witness for C9: a string on a qubit of register `r` fails with the
register error; an operator whose single term acts on `q[5]` with coefficient
`2` succeeds with the factor keyed by index `5`. -/
theorem pauli_expectation_register_check_witness :
    get_pauli_expectation_value [(⟨"r", [0]⟩, PauliExpr.X)] = .error .invalidRegister ∧
    get_operator_expectation_value [([(⟨"q", [5]⟩, PauliExpr.Z)], (2 : Int))] =
      .ok [([(PauliExpr.Z, 5)], 2)] :=
  ⟨(pauli_expectation_register_check [(⟨"r", [0]⟩, PauliExpr.X)]
      ([] : List (List (TkQubit × PauliExpr) × Int))).1
    ⟨(⟨"r", [0]⟩, PauliExpr.X), by simp, by decide⟩,
  (pauli_expectation_register_check ([] : List (TkQubit × PauliExpr))
      [([(⟨"q", [5]⟩, PauliExpr.Z)], (2 : Int))]).2.2.2
    (by decide)⟩

/-- C8: submitting a circuit with a numeric global phase `p` to the state
backend caches, under the issued handle and before the handle is returned, a
result whose amplitude vector is the simulator's amplitude vector with every
amplitude multiplied by `exp(p * π * i)` — elementwise:
`state[k] = amps[k] * exp(p·π·i)`. -/
theorem state_phase_scaling (cache : SCache) (c : SCircuit) (simAmps : List ℂ)
    (perm : Nat → Nat) (uuid : Nat) (p : ℚ) (hp : c.phase = some p) :
    ∃ res, (forestState_processOne cache c simAmps perm uuid).1
        (forestState_processOne cache c simAmps perm uuid).2 = some res ∧
      res.state = simAmps.map (fun a => a * Complex.exp (p * Real.pi * Complex.I)) ∧
      res.state.length = simAmps.length ∧
      ∀ k, k < simAmps.length →
        res.state.getD k 0 = simAmps.getD k 0 * Complex.exp (p * Real.pi * Complex.I) := by
  refine ⟨⟨(List.insertionSort (· ≥ ·) c.qubits).map perm,
    simAmps.map (fun a => a * Complex.exp (p * Real.pi * Complex.I))⟩, ?_, rfl, by simp, ?_⟩
  · simp [forestState_processOne, hp, scacheSet]
  · intro k hk
    simp only [List.getD_eq_getElem?_getD, List.getElem?_map]
    rw [List.getElem?_eq_getElem hk]
    simp

/-- Witness for C8: global phase `1` on the one-amplitude vector `[1]`; the
cached amplitude is `exp(π·i) = -1`. -/
theorem state_phase_scaling_witness :
    (∃ res, (forestState_processOne emptySCache ⟨[0], some 1⟩ [1] id 0).1
        (forestState_processOne emptySCache ⟨[0], some 1⟩ [1] id 0).2 = some res ∧
      res.state = [1].map (fun a => a * Complex.exp ((1 : ℚ) * Real.pi * Complex.I)) ∧
      res.state.length = [1].length ∧
      ∀ k, k < ([1] : List ℂ).length →
        res.state.getD k 0 = ([1] : List ℂ).getD k 0 *
          Complex.exp ((1 : ℚ) * Real.pi * Complex.I)) ∧
    Complex.exp ((1 : ℚ) * Real.pi * Complex.I) = -1 :=
  ⟨state_phase_scaling emptySCache ⟨[0], some 1⟩ [1] id 0 1 rfl,
    by rw [Rat.cast_one, one_mul]; exact Complex.exp_pi_mul_I⟩

/-- C10: on the state backend every submission stores its result in the cache
before the handle is returned, so over any batch of submissions the status of
a handle is `COMPLETED` exactly when the handle was issued and
`CircuitNotRunError` otherwise — `PyQuilJobStatusUnavailable` is never raised
and no `SUBMITTED`/`RUNNING` status is ever reported. -/
theorem state_backend_status_dichotomy
    (inputs : List (SCircuit × List ℂ × (Nat → Nat) × Nat)) (h : Nat) :
    forestState_circuit_status (forestState_processCircuits inputs).1 h =
      if h ∈ (forestState_processCircuits inputs).2 then .ok .completed
      else .error .circuitNotRun := by
  have key : ∀ (ins : List (SCircuit × List ℂ × (Nat → Nat) × Nat))
      (cache : SCache) (issued : List Nat),
      (∀ x, (cache x).isSome ↔ x ∈ issued) →
      ∀ x, ((ins.foldl
          (fun s inp =>
            let (cache', hh) := forestState_processOne s.1 inp.1 inp.2.1 inp.2.2.1 inp.2.2.2
            (cache', s.2 ++ [hh]))
          (cache, issued)).1 x).isSome ↔
        x ∈ (ins.foldl
          (fun s inp =>
            let (cache', hh) := forestState_processOne s.1 inp.1 inp.2.1 inp.2.2.1 inp.2.2.2
            (cache', s.2 ++ [hh]))
          (cache, issued)).2 := by
    intro ins
    induction ins with
    | nil => intro cache issued hinv x; exact hinv x
    | cons inp rest ih =>
      intro cache issued hinv x
      simp only [List.foldl_cons]
      refine ih _ _ ?_ x
      intro y
      by_cases hy : y = inp.2.2.2
      · subst hy
        simp [forestState_processOne, scacheSet]
      · simp only [forestState_processOne, scacheSet]
        simp [hy, hinv y]
  have hdom := key inputs emptySCache [] (by simp [emptySCache]) h
  unfold forestState_circuit_status forestState_processCircuits
  unfold forestState_processCircuits at hdom
  simp only [hdom]

/-- C5 counterexample: the spec's "status is `Completed` iff `result` was
successfully called before" fails on the code — submitting a single circuit
with zero `Measure` gates (and never calling `get_result`) already yields
`COMPLETED`, because submission eagerly caches the empty result. -/
theorem status_completed_not_iff_result_called :
    (statusIffResultCalled → False) ∧
    circuit_status (runOps (fun _ => none)
        [.submit ⟨[], 0⟩ ⟨[], 0⟩ [] 1 0 0 none]).1 (0, none) = .ok .completed ∧
    (runOps (fun _ => none) [.submit ⟨[], 0⟩ ⟨[], 0⟩ [] 1 0 0 none]).2 = [] :=
  ⟨fun hcl => by
      simpa [runOps, stepOp] using
        (hcl (fun _ => none) [.submit ⟨[], 0⟩ ⟨[], 0⟩ [] 1 0 0 none] (0, none)).mp rfl,
    rfl, rfl⟩

/-- Helper: `circuit_status` answers `COMPLETED` exactly when a result is
cached for the handle. -/
theorem circuit_status_eq_completed_iff (cache : Cache) (h : Handle) :
    circuit_status cache h = .ok .completed ↔ resultCached cache h := by
  unfold circuit_status resultCached
  cases hc : cache h with
  | none => simp
  | some e =>
    cases hr : e.result with
    | none => simp [hr]
    | some r => simp [hr]

/-- Helper trace invariant: running a trace from a state whose cached results
are exactly `log ∪ Z`, with all future submission handles fresh and pairwise
distinct, ends in a state whose cached results are exactly the successful
retrievals plus `Z` plus the zero-measure submissions of the trace. -/
theorem runOps_resultCached_aux (raw : Nat → Option (List (List Nat))) :
    ∀ (ops : List ForestOp) (cache : Cache) (log : List Handle) (Z : Handle → Prop),
      (submitHandles ops).Nodup →
      (∀ x, (cache x).isSome → x ∉ submitHandles ops) →
      (∀ x, resultCached cache x ↔ (x ∈ log ∨ Z x)) →
      ∀ x, resultCached (ops.foldl (stepOp raw) (cache, log)).1 x ↔
        (x ∈ (ops.foldl (stepOp raw) (cache, log)).2 ∨ Z x ∨ x ∈ zeroMeasSubmits ops) := by
  intro ops
  induction ops with
  | nil =>
    intro cache log Z _ _ hinv x
    simpa [zeroMeasSubmits] using hinv x
  | cons op rest ih =>
    intro cache log Z hnd hdom hinv x
    cases op with
    | submit circuit c0 ub n u pq pp =>
      have hhd : submitHandles (ForestOp.submit circuit c0 ub n u pq pp :: rest) =
          (u, pp) :: submitHandles rest := by
        simp [submitHandles, ForestOp.submitHandle, List.filterMap_cons]
      rw [hhd] at hnd hdom
      have hfresh : (u, pp) ∉ submitHandles rest := (List.nodup_cons.mp hnd).1
      have hndrest : (submitHandles rest).Nodup := (List.nodup_cons.mp hnd).2
      have hempty : cache (u, pp) = none := by
        cases hc : cache (u, pp) with
        | none => rfl
        | some e =>
          exact absurd (List.mem_cons_self _ _) (hdom (u, pp) (by simp [hc]))
      have hnores : ¬ ((u, pp) ∈ log ∨ Z (u, pp)) := by
        rw [← hinv (u, pp)]
        rintro ⟨e, he, -⟩
        rw [hempty] at he
        exact Option.noConfusion he
      have hlook_ne : ∀ y, y ≠ (u, pp) →
          (processOne cache circuit c0 ub n u pq pp).1 y = cache y := by
        intro y hy
        simp [processOne, cacheSet, hy]
      have hlook_eq : resultCached (processOne cache circuit c0 ub n u pq pp).1 (u, pp) ↔
          circuit.nMeasure = 0 := by
        by_cases hm : circuit.nMeasure = 0
        · simp [processOne, cacheSet, hm, resultCached]
        · simp [processOne, cacheSet, hm, resultCached]
      simp only [List.foldl_cons, stepOp]
      refine (ih ((processOne cache circuit c0 ub n u pq pp).1) log
        (fun y => Z y ∨ (circuit.nMeasure = 0 ∧ y = (u, pp))) hndrest ?_ ?_ x).trans ?_
      · intro y hy
        by_cases hyu : y = (u, pp)
        · subst hyu; exact hfresh
        · rw [hlook_ne y hyu] at hy
          exact fun hmem => hdom y hy (List.mem_cons_of_mem _ hmem)
      · intro y
        by_cases hyu : y = (u, pp)
        · subst hyu
          rw [hlook_eq]
          constructor
          · intro hm
            exact Or.inr (Or.inr ⟨hm, rfl⟩)
          · rintro (hlog | hz | ⟨hm, -⟩)
            · exact absurd (Or.inl hlog) hnores
            · exact absurd (Or.inr hz) hnores
            · exact hm
        · rw [show resultCached (processOne cache circuit c0 ub n u pq pp).1 y ↔
              resultCached cache y from by unfold resultCached; rw [hlook_ne y hyu]]
          rw [hinv y]
          constructor
          · rintro (hlog | hz)
            · exact Or.inl hlog
            · exact Or.inr (Or.inl hz)
          · rintro (hlog | hz | ⟨-, hyeq⟩)
            · exact Or.inl hlog
            · exact Or.inr hz
            · exact absurd hyeq hyu
      · have hzm : x ∈ zeroMeasSubmits (ForestOp.submit circuit c0 ub n u pq pp :: rest) ↔
            ((circuit.nMeasure = 0 ∧ x = (u, pp)) ∨ x ∈ zeroMeasSubmits rest) := by
          by_cases hm : circuit.nMeasure = 0
          · simp [zeroMeasSubmits, List.filterMap_cons, hm]
          · simp [zeroMeasSubmits, List.filterMap_cons, hm]
        rw [hzm]
        tauto
    | getRes h₁ =>
      have hhd : submitHandles (ForestOp.getRes h₁ :: rest) = submitHandles rest := by
        simp [submitHandles, ForestOp.submitHandle, List.filterMap_cons]
      rw [hhd] at hnd hdom
      have hzm : zeroMeasSubmits (ForestOp.getRes h₁ :: rest) = zeroMeasSubmits rest := by
        simp [zeroMeasSubmits, List.filterMap_cons]
      simp only [List.foldl_cons, stepOp]
      cases hres : get_result raw cache h₁ with
      | error e =>
        simp only [hres]
        rw [hzm]
        exact ih cache log Z hnd hdom hinv x
      | ok t =>
        obtain ⟨r, cache1, f⟩ := t
        simp only [hres]
        obtain ⟨hcached, hother, hdompres⟩ := get_result_ok_spec raw cache h₁ r cache1 f hres
        refine (ih cache1 (h₁ :: log) Z hnd ?_ ?_ x).trans ?_
        · intro y hy
          exact hdom y (hdompres y hy)
        · intro y
          by_cases hy1 : y = h₁
          · subst hy1
            constructor
            · intro _
              exact Or.inl (List.mem_cons_self _ _)
            · intro _
              obtain ⟨e, he, hr⟩ := hcached
              exact ⟨e, he, by simp [hr]⟩
          · rw [show resultCached cache1 y ↔ resultCached cache y from by
              unfold resultCached; rw [hother y hy1]]
            rw [hinv y, List.mem_cons]
            tauto
        · rw [hzm]

/-- C5 amended: on the persistent-handle `ForestBackend`, over any trace of
submissions (with distinct submission handles, as `uuid4` guarantees) and
retrievals on a fresh instance, `circuit_status` answers `COMPLETED` for a
handle iff `get_result` succeeded for it at least once before **or** the
handle was issued for a circuit with zero measurement gates (whose result is
cached eagerly at submission); on the state-based target, status is
`COMPLETED` iff the handle was issued at all (every submission uses the
immediate path). -/
theorem status_completed_iff_result_called_or_unmeasured
    (raw : Nat → Option (List (List Nat))) (ops : List ForestOp) (h : Handle)
    (hfresh : (submitHandles ops).Nodup) :
    circuit_status (runOps raw ops).1 h = .ok .completed ↔
      (h ∈ (runOps raw ops).2 ∨ h ∈ zeroMeasSubmits ops) := by
  have hmain := runOps_resultCached_aux raw ops emptyCache [] (fun _ => False) hfresh
    (fun x hx => by simp [emptyCache] at hx)
    (fun x => by simp [emptyCache, resultCached])
    h
  rw [circuit_status_eq_completed_iff]
  unfold runOps
  rw [hmain]
  simp

/-- Witness for the amended C5: one zero-measure submission, no retrieval;
both sides of the equivalence hold (status is `COMPLETED`, and the handle is
among the zero-measure submissions). -/
theorem status_completed_iff_result_called_or_unmeasured_witness :
    circuit_status (runOps (fun _ => none)
        [.submit ⟨[], 0⟩ ⟨[], 0⟩ [] 1 0 0 none]).1 (0, none) = .ok .completed ↔
      ((0, none) ∈ (runOps (fun _ => none)
          [.submit ⟨[], 0⟩ ⟨[], 0⟩ [] 1 0 0 none]).2 ∨
        (0, none) ∈ zeroMeasSubmits [.submit ⟨[], 0⟩ ⟨[], 0⟩ [] 1 0 0 none]) :=
  status_completed_iff_result_called_or_unmeasured (fun _ => none)
    [.submit ⟨[], 0⟩ ⟨[], 0⟩ [] 1 0 0 none] (0, none)
    (by simp [submitHandles, ForestOp.submitHandle, List.filterMap_cons])

end Forest
